import Mathlib

/-!
# Verification of the hw-fuzzing-driver core (instruction generator and calibration stage)

Shallow embedding of `src/generator.rs` and `src/calibration.rs` of the
`vusec/hw-fuzzing-driver` repository, together with the parts of the ISA data
model (`crate::instructions`, not present in the sources) and of the host
fuzzing engine's interfaces (libafl's `Rand`, corpus, scheduler metadata,
executor and event contracts) that those two files use.  Rust `u32`/`usize`
values are embedded as `Nat` with explicit `% 2 ^ 32` where 32-bit wrap-around
matters; fallible operations (`expect`, `assert!`, the `?` operator) are
embedded as `Option`/`Except`.
-/

namespace HwFuzz

/-! ## ISA data model

Modelled from the spec: the `crate::instructions` module is not among the
sources.  Per the spec's data model, an operand spec has a positive bit-width
and a derived inclusive maximum value `2 ^ width - 1`; equality of operand
specs is identity of the declared slot, embedded here as an explicit `id`
field.  An `Argument` pairs an operand spec with a numeric value (invariant:
`value ≤ spec.max_value`, enforced at construction sites of the ISA model). -/

/-- Modelled from the spec: one operand slot's encoding rule
(`ArgumentSpec` of `crate::instructions`).  `id` realises the spec's
reference-identity equality between declared slots. -/
structure ArgumentSpec where
  id : Nat
  width : Nat
  deriving DecidableEq, Repr

/-- Modelled from the spec: the operand's bit-width accessor (`length()`). -/
def ArgumentSpec.length (s : ArgumentSpec) : Nat := s.width

/-- Modelled from the spec: derived inclusive max value `2 ^ width - 1`
(`max_value()`). -/
def ArgumentSpec.max_value (s : ArgumentSpec) : Nat := 2 ^ s.width - 1

/-- Modelled from the spec: a concrete operand value bound to its spec
(`Argument` of `crate::instructions`). -/
structure Argument where
  spec : ArgumentSpec
  value : Nat
  deriving DecidableEq, Repr

/-- Modelled from the spec: `Argument::new(spec, value)`. -/
def Argument.new (spec : ArgumentSpec) (value : Nat) : Argument := ⟨spec, value⟩

/-- Modelled from the spec: one opcode definition with its ordered operand
slots (`InstructionTemplate`). -/
structure InstructionTemplate where
  id : Nat
  operands : List ArgumentSpec
  deriving DecidableEq, Repr

/-- Modelled from the spec: one emitted instruction: a template reference plus
its ordered argument list (`Instruction`). -/
structure Instruction where
  template : InstructionTemplate
  arguments : List Argument
  deriving DecidableEq, Repr

/-- Modelled from the spec: `Instruction::new(template, arguments)`. -/
def Instruction.new (template : InstructionTemplate) (arguments : List Argument) :
    Instruction := ⟨template, arguments⟩

/-! ## Random source

Modelled from the spec's external-interface contract: the generator consumes
an externally supplied uniform-random source (libafl's `Rand`).  `below n`
returns a value in `[0, n)` (exclusive upper bound) and advances the source;
`choose` picks a uniformly random element of a non-empty sequence (one `below`
draw) and returns `none` on an empty sequence without drawing.  The source is
embedded as a raw stream `seq` plus a cursor, with `below` taking the next raw
draw modulo the bound — a faithful model of "uniform in `[0, bound)`" that
keeps every definition executable. -/

/-- Modelled from the spec: state of the external uniform-random source. -/
structure RandSource where
  seq : Nat → Nat
  idx : Nat

/-- Modelled from the spec: `Rand::below(bound)`: next value in `[0, bound)`
(the bound is exclusive); callers guarantee `bound ≠ 0` via `NonZero`. -/
def RandSource.below (r : RandSource) (bound : Nat) : Nat × RandSource :=
  (r.seq r.idx % bound, ⟨r.seq, r.idx + 1⟩)

/-- Modelled from the spec: `Rand::choose(seq)`: `none` on an empty sequence,
otherwise a uniformly chosen element (one `below` draw for the index). -/
def RandSource.choose {α : Type} (r : RandSource) (l : List α) : Option α × RandSource :=
  if l.isEmpty then (none, r)
  else
    let (i, r1) := r.below l.length
    (l.get? i, r1)

/-! ## The biased instruction generator (`src/generator.rs`) -/

/-- `InstGenerator` (src/generator.rs lines 8-15): the reuse pool plus the two
bias chances (each 0-100). -/
structure InstGenerator where
  known_args : List Argument
  reuse_chance : Nat
  power_of_two_chance : Nat
  deriving DecidableEq, Repr

/-- The process environment, as seen by `std::env::var`: a partial map from
variable names to values. -/
def Env : Type := String → Option String

/-- The environment-variable name read by `InstGenerator::new`. -/
def noArgReuseVar : String := "PHANTOM_TRAILS_NO_ARG_REUSE"

/-- `InstGenerator::new` (src/generator.rs lines 18-26): reads the ambient
environment (`env::var("PHANTOM_TRAILS_NO_ARG_REUSE").is_ok()`) to decide the
two bias chances; it takes no explicit toggle parameter, so the environment is
an explicit input of the embedding. -/
def InstGenerator.new (env : Env) : InstGenerator :=
  let reuse_args := !(env noArgReuseVar).isSome
  { known_args := []
    reuse_chance := if reuse_args then 50 else 0
    power_of_two_chance := if reuse_args then 50 else 0 }

/-- `InstGenerator::forward_args` (src/generator.rs lines 28-30): append the
batch to the end of the reuse pool. -/
def InstGenerator.forward_args (g : InstGenerator) (args : List Argument) : InstGenerator :=
  { g with known_args := g.known_args ++ args }

/-- The power-of-two branch of `generate_argument` (src/generator.rs line 50):
`Argument::new(arg, 1 << rand.below(NonZero::new(arg.length()).expect(..)))`.
`none` models the fatal `expect` when `arg.length() == 0`; the shifted value is
a Rust `u32`, hence the `% 2 ^ 32`. -/
def powerOfTwoDraw (r : RandSource) (arg : ArgumentSpec) : Option (Argument × RandSource) :=
  if arg.length = 0 then none
  else
    let (k, r1) := r.below arg.length
    some (Argument.new arg ((2 ^ k) % 2 ^ 32), r1)

/-- The uniform branch of `generate_argument` (src/generator.rs line 52):
`Argument::new(arg, rand.below(NonZero::new(arg.max_value()).expect(..)) as u32)`.
`none` models the fatal `expect` when `arg.max_value() == 0`.  Note the bound
of `below` is exclusive, so the drawn value lies in `[0, max_value)`. -/
def uniformDraw (r : RandSource) (arg : ArgumentSpec) : Option (Argument × RandSource) :=
  if arg.max_value = 0 then none
  else
    let (v, r1) := r.below arg.max_value
    some (Argument.new arg v, r1)

/-- The second half of `generate_argument` (src/generator.rs lines 49-53):
draw `U2` in `[0,100)`; power-of-two branch if `U2 < power_of_two_chance`,
uniform branch otherwise. -/
def InstGenerator.power_or_uniform (g : InstGenerator) (r : RandSource)
    (arg : ArgumentSpec) : Option (Argument × RandSource) :=
  let (u2, r1) := r.below 100
  if u2 < g.power_of_two_chance then powerOfTwoDraw r1 arg
  else uniformDraw r1 arg

/-- `InstGenerator::generate_argument` (src/generator.rs lines 32-54).
Draw `U` in `[0,100)`; if `U < reuse_chance`, filter the pool to arguments of
the same bit-width and, if any, return a uniformly chosen one's value rebound
to `arg`; in every other case fall through to the power-of-two/uniform half.
`none` models a fatal `expect`. -/
def InstGenerator.generate_argument (g : InstGenerator) (r : RandSource)
    (arg : ArgumentSpec) : Option (Argument × RandSource) :=
  let (u, r1) := r.below 100
  if u < g.reuse_chance then
    let options := g.known_args.filter (fun x => x.spec.length = arg.length)
    if options.isEmpty then g.power_or_uniform r1 arg
    else
      match r1.choose options with
      | (none, _) => none
      | (some chosen, r2) => some (Argument.new arg chosen.value, r2)
  else g.power_or_uniform r1 arg

/-- `InstGenerator::generate_argument` restricted to the generated value, for
concrete evaluation. -/
def InstGenerator.genArgValue (g : InstGenerator) (r : RandSource)
    (arg : ArgumentSpec) : Option Nat :=
  (g.generate_argument r arg).map (fun p => p.1.value)

/-- Modelled from the spec: the uniform branch of `generate_argument` as the
spec's words describe it — "return a value drawn uniformly from
`[0, spec.max_value()]` inclusive", i.e. a draw with exclusive bound
`max_value + 1`.  Kept separate from `uniformDraw` (which embeds the source)
to compare the two. -/
def uniformDrawSpec (r : RandSource) (arg : ArgumentSpec) : Argument × RandSource :=
  let (v, r1) := r.below (arg.max_value + 1)
  (Argument.new arg v, r1)

/-- The argument loop of `generate_instruction` (src/generator.rs lines 64-67):
for each operand slot in declared order, call `generate_argument` and collect
the results; `none` if any call hits a fatal branch. -/
def InstGenerator.generate_args (g : InstGenerator) :
    RandSource → List ArgumentSpec → Option (List Argument × RandSource)
  | r, [] => some ([], r)
  | r, spec :: rest =>
    match g.generate_argument r spec with
    | none => none
    | some (a, r1) =>
      match g.generate_args r1 rest with
      | none => none
      | some (rest_args, r2) => some (a :: rest_args, r2)

/-- `InstGenerator::generate_instruction` (src/generator.rs lines 56-69):
`assert!(!insts.is_empty())` (fatal, modelled as `none`), choose a template
uniformly, generate one argument per operand slot in order, assemble the
`Instruction`. -/
def InstGenerator.generate_instruction (g : InstGenerator) (r : RandSource)
    (insts : List InstructionTemplate) : Option (Instruction × RandSource) :=
  if insts.isEmpty then none
  else
    match r.choose insts with
    | (none, _) => none
    | (some template, r1) =>
      match g.generate_args r1 template.operands with
      | none => none
      | some (arguments, r2) => some (Instruction.new template arguments, r2)

/-- `InstGenerator::generate_instructions` (src/generator.rs lines 71-82):
`number` independently generated instructions, collected in order. -/
def InstGenerator.generate_instructions (g : InstGenerator) :
    RandSource → List InstructionTemplate → Nat → Option (List Instruction × RandSource)
  | r, _, 0 => some ([], r)
  | r, insts, n + 1 =>
    match g.generate_instruction r insts with
    | none => none
    | some (inst, r1) =>
      match g.generate_instructions r1 insts n with
      | none => none
      | some (rest, r2) => some (inst :: rest, r2)

/-! ## Method-call traces on a generator

In the source, `generate_argument`, `generate_instruction` and
`generate_instructions` take `&self` (an immutable borrow), so the embedding
of each is a pure function that does not return a generator; `forward_args`
takes `&mut self`.  `GenCall`/`applyCall` replay an arbitrary sequence of
method calls on a generator object to state frame properties. -/

/-- One method call on an `InstGenerator` object. -/
inductive GenCall where
  | forward (args : List Argument)
  | genArg (r : RandSource) (spec : ArgumentSpec)
  | genInst (r : RandSource) (insts : List InstructionTemplate)
  | genInsts (r : RandSource) (insts : List InstructionTemplate) (n : Nat)

/-- The generator state after one method call: `forward_args` takes
`&mut self` and updates the pool; the three generation methods take `&self`,
so the object is unchanged by the borrow rules of the source. -/
def applyCall (g : InstGenerator) : GenCall → InstGenerator
  | .forward args => g.forward_args args
  | .genArg _ _ => g
  | .genInst _ _ => g
  | .genInsts _ _ _ => g

/-- The generator state after a sequence of method calls. -/
def applyCalls (g : InstGenerator) : List GenCall → InstGenerator
  | [] => g
  | c :: cs => applyCalls (applyCall g c) cs

/-- The batches appended by the `forward_args` calls of a call sequence. -/
def forwardedBatches : List GenCall → List Argument
  | [] => []
  | .forward args :: cs => args ++ forwardedBatches cs
  | _ :: cs => forwardedBatches cs

/-! ## Host-engine interfaces used by the calibration stage

Modelled from the spec's external-interface section: exit classification,
log severities, the per-entry and run-global scheduler metadata of the power
schedule, the corpus/state contract, and the executor/observer contract.
Durations are whole seconds (`Duration::from_secs`), embedded as `Nat`. -/

/-- Modelled from the spec: the exit classification of one target execution
(libafl's `ExitKind`). -/
inductive ExitKind where
  | ok
  | crash
  | oom
  | timeout
  deriving DecidableEq, Repr

/-- Modelled from the spec: severity levels of the host event channel's log
messages (libafl's `LogSeverity`). -/
inductive LogSeverity where
  | debug
  | info
  | warn
  | error
  deriving DecidableEq, Repr

/-- Observable side effects of one `perform` call, in order: the observer
pre/post hooks, the single target execution, and log events fired through the
host event channel. -/
inductive Event where
  | preExec
  | runTarget
  | postExec
  | log (severity : LogSeverity) (msg : String)
  deriving DecidableEq, Repr

/-- Errors surfaced by the host execution/observer/storage layer and
propagated by the `?` operator in `perform`. -/
inductive CalError where
  | keyNotFound (id : Nat)
  | hostError (msg : String)
  deriving DecidableEq, Repr

/-- Model of the `f64` log accumulator `bitmap_size_log`, which is only ever
built by adding `libm::log2(n as f64)` terms for natural `n`.  A finite value
is represented by the list of arguments whose `log2` was added (its real value
is the sum of their base-2 logarithms); `log2 0 = -∞`, and IEEE addition sends
a finite value or `-∞` plus `-∞` to `-∞`, and anything involving a NaN to NaN. -/
inductive LogAccum where
  | fin (terms : List Nat)
  | negInf
  | nan
  deriving DecidableEq, Repr

/-- Adding `log2 n` to the accumulator: `log2 0 = -∞` poisons a finite or
`-∞` value to `-∞` (IEEE `x + -∞ = -∞` for finite `x`, `-∞ + -∞ = -∞`); a NaN
absorbs everything. -/
def LogAccum.addLog2 : LogAccum → Nat → LogAccum
  | .nan, _ => .nan
  | .negInf, _ => .negInf
  | .fin terms, n => if n = 0 then .negInf else .fin (terms ++ [n])

/-- Modelled from the spec: libafl's per-entry `SchedulerTestcaseMetadata`
(the spec's CalibrationRecord): lineage depth, accumulated cost and cycles
(`set_cycle_and_time`), filled-byte count and handicap. -/
structure SchedulerTestcaseMetadata where
  depth : Nat
  exec_time : Nat
  cycles : Nat
  bitmap_size : Nat
  handicap : Nat
  deriving DecidableEq, Repr

/-- Modelled from the spec: `SchedulerTestcaseMetadata::new(depth)` starts
from depth only. -/
def SchedulerTestcaseMetadata.new (depth : Nat) : SchedulerTestcaseMetadata :=
  { depth := depth, exec_time := 0, cycles := 0, bitmap_size := 0, handicap := 0 }

/-- Modelled from the spec: libafl's run-global `SchedulerMetadata` (the
spec's GlobalCostMetadata): total cost, total calibration cycles, total
filled-byte count, total `log2(filled-byte count)`, total calibrated-entry
count, plus the global queue-cycle counter read as handicap. -/
structure SchedulerMetadata where
  exec_time : Nat
  cycles : Nat
  bitmap_size : Nat
  bitmap_size_log : LogAccum
  bitmap_entries : Nat
  queue_cycles : Nat
  deriving DecidableEq, Repr

/-- Modelled from the spec: one fuzz test case: an ordered sequence of
instructions (`ProgramInput`, `insts()`). -/
structure ProgramInput where
  insts : List Instruction
  deriving DecidableEq, Repr

/-- Modelled from the spec: one corpus entry (libafl `Testcase`): its stored
program, how often it was scheduled, its recorded execution time, its parent
entry id, and its optional scheduler metadata. -/
structure Testcase where
  input : ProgramInput
  scheduled_count : Nat
  exec_time : Option Nat
  parent_id : Option Nat
  sched_meta : Option SchedulerTestcaseMetadata
  deriving DecidableEq, Repr

/-- Modelled from the spec: look an entry up by id in the corpus
(`corpus().get(id)`). -/
def corpusGet : List (Nat × Testcase) → Nat → Option Testcase
  | [], _ => none
  | (j, tc) :: rest, i => if j = i then some tc else corpusGet rest i

/-- Modelled from the spec: replace the entry stored under an id
(the corpus side of `current_testcase_mut`). -/
def corpusSet : List (Nat × Testcase) → Nat → Testcase → List (Nat × Testcase)
  | [], _, _ => []
  | (j, t) :: rest, i, tc =>
    if j = i then (j, tc) :: rest else (j, t) :: corpusSet rest i tc

/-- Modelled from the spec: the slice of the host fuzzer state the stage
touches: the corpus, the id of the currently scheduled entry, and the optional
run-global `SchedulerMetadata`. -/
structure FuzzState where
  corpus : List (Nat × Testcase)
  current_id : Nat
  sched_meta : Option SchedulerMetadata
  deriving DecidableEq, Repr

/-- Modelled from the spec: `state.current_testcase()` — the currently
scheduled entry, or a key-not-found error. -/
def FuzzState.current_testcase (st : FuzzState) : Except CalError Testcase :=
  match corpusGet st.corpus st.current_id with
  | some tc => Except.ok tc
  | none => Except.error (CalError.keyNotFound st.current_id)

/-- Modelled from the spec: the executor/observer contract for one execution
of the current input: outcomes of the pre-exec hooks, of `run_target`, of the
post-exec hooks and of the event channel's `log`, plus the coverage map's
count of nonzero bytes after the run (`count_bytes`). -/
structure ExecModel where
  pre_exec : Except CalError Unit
  run_target : Except CalError ExitKind
  post_exec : Except CalError Unit
  log_result : Except CalError Unit
  count_bytes : Nat

/-- The warning fired on an abnormal exit (src/calibration.rs line 124). -/
def calibrationWarnMsg : String := "Corpus entry errored on execution!"

/-- The get-or-create of the entry's `SchedulerTestcaseMetadata`
(src/calibration.rs lines 160-181): keep an existing record; otherwise create
one at depth `parent depth + 1` when the parent (looked up by
`corpus().get(parent_id)?`, which can propagate a key-not-found error) has a
record, and at depth `0` when the entry has no parent or the parent has no
record. -/
def getOrCreateMeta (st : FuzzState) (tc : Testcase) :
    Except CalError SchedulerTestcaseMetadata :=
  match tc.sched_meta with
  | some m => Except.ok m
  | none =>
    match tc.parent_id with
    | some parent_id =>
      match corpusGet st.corpus parent_id with
      | none => Except.error (CalError.keyNotFound parent_id)
      | some parent =>
        match parent.sched_meta with
        | some parent_meta => Except.ok (SchedulerTestcaseMetadata.new (parent_meta.depth + 1))
        | none => Except.ok (SchedulerTestcaseMetadata.new 0)
    | none => Except.ok (SchedulerTestcaseMetadata.new 0)

/-- `DummyCalibration::perform` (src/calibration.rs lines 95-189), returning
the final state and the ordered side effects.  The stage returns `Ok`
immediately when the entry was already scheduled; otherwise it runs the
observer hooks around exactly one target execution, logs a warning on an
abnormal exit, computes `total_time = insts.len() + 1` seconds, and — only
when the run-global `SchedulerMetadata` is registered — accumulates the global
cost metadata, records the entry's execution time, and gets or creates the
entry's `SchedulerTestcaseMetadata`.  A propagated host error short-circuits
(the partially mutated host state after an error is outside the claims and is
not modelled). -/
def perform (st : FuzzState) (ex : ExecModel) : Except CalError (FuzzState × List Event) :=
  match st.current_testcase with
  | Except.error e => Except.error e
  | Except.ok tc =>
    if tc.scheduled_count > 0 then Except.ok (st, [])
    else
      let iter : Nat := 1
      match ex.pre_exec with
      | Except.error e => Except.error e
      | Except.ok _ =>
        match ex.run_target with
        | Except.error e => Except.error e
        | Except.ok exit_kind =>
          let logStep : Except CalError (List Event) :=
            if exit_kind ≠ ExitKind.ok then
              match ex.log_result with
              | Except.error e => Except.error e
              | Except.ok _ => Except.ok [Event.log LogSeverity.warn calibrationWarnMsg]
            else Except.ok []
          match logStep with
          | Except.error e => Except.error e
          | Except.ok warnEvents =>
            match ex.post_exec with
            | Except.error e => Except.error e
            | Except.ok _ =>
              let events := [Event.preExec, Event.runTarget] ++ warnEvents ++ [Event.postExec]
              let total_time := tc.input.insts.length + 1
              match st.sched_meta with
              | none => Except.ok (st, events)
              | some psmeta =>
                let bitmap_size := ex.count_bytes
                let handicap := psmeta.queue_cycles
                let psmeta' : SchedulerMetadata :=
                  { psmeta with
                    exec_time := psmeta.exec_time + total_time
                    cycles := psmeta.cycles + iter
                    bitmap_size := psmeta.bitmap_size + bitmap_size
                    bitmap_size_log := psmeta.bitmap_size_log.addLog2 bitmap_size
                    bitmap_entries := psmeta.bitmap_entries + 1 }
                let tc1 : Testcase := { tc with exec_time := some (total_time / iter) }
                match getOrCreateMeta st tc1 with
                | Except.error e => Except.error e
                | Except.ok data =>
                  let data' : SchedulerTestcaseMetadata :=
                    { data with
                      exec_time := total_time
                      cycles := iter
                      bitmap_size := bitmap_size
                      handicap := handicap }
                  let tc2 : Testcase := { tc1 with sched_meta := some data' }
                  Except.ok
                    ({ st with
                       corpus := corpusSet st.corpus st.current_id tc2
                       sched_meta := some psmeta' }, events)

/-- Modelled from the spec: the depth rule in the spec's words — "depth =
parent's recorded depth + 1, or 0 if the entry has no parent or the parent has
no CalibrationRecord" — for comparison with what `perform` attaches. -/
def specDepth (st : FuzzState) (tc : Testcase) : Nat :=
  match tc.parent_id with
  | none => 0
  | some parent_id =>
    match corpusGet st.corpus parent_id with
    | none => 0
    | some parent =>
      match parent.sched_meta with
      | some parent_meta => parent_meta.depth + 1
      | none => 0

/-! ## Helper lemmas -/

/-- A `u32` power of two below the operand width stays below `2 ^ width`. -/
theorem mod32_lt_two_pow {k w : Nat} (h : k < w) : 2 ^ k % 2 ^ 32 < 2 ^ w :=
  lt_of_le_of_lt (Nat.mod_le _ _) (Nat.pow_lt_pow_right one_lt_two h)

/-- A successful power-of-two draw is bounded by the operand's max value. -/
theorem powerOfTwoDraw_le {r : RandSource} {arg : ArgumentSpec} {res : Argument}
    {r' : RandSource} (h : powerOfTwoDraw r arg = some (res, r')) :
    res.value ≤ arg.max_value := by
  unfold powerOfTwoDraw at h
  split at h
  · exact Option.noConfusion h
  · rename_i hlen
    simp only [RandSource.below, Option.some.injEq, Prod.mk.injEq] at h
    obtain ⟨hres, _⟩ := h
    subst hres
    have hk : r.seq r.idx % arg.length < arg.length :=
      Nat.mod_lt _ (Nat.pos_of_ne_zero hlen)
    have hb : 2 ^ (r.seq r.idx % arg.length) % 2 ^ 32 < 2 ^ arg.width :=
      mod32_lt_two_pow hk
    simp only [Argument.new, ArgumentSpec.max_value]
    omega

/-- A successful uniform draw is strictly below the operand's max value. -/
theorem uniformDraw_lt {r : RandSource} {arg : ArgumentSpec} {res : Argument}
    {r' : RandSource} (h : uniformDraw r arg = some (res, r')) :
    res.value < arg.max_value := by
  unfold uniformDraw at h
  split at h
  · exact Option.noConfusion h
  · rename_i hmax
    simp only [RandSource.below, Option.some.injEq, Prod.mk.injEq] at h
    obtain ⟨hres, _⟩ := h
    subst hres
    exact Nat.mod_lt _ (Nat.pos_of_ne_zero hmax)

/-- A successful power-of-two/uniform fall-through is bounded by the operand's
max value. -/
theorem power_or_uniform_le {g : InstGenerator} {r : RandSource} {arg : ArgumentSpec}
    {res : Argument} {r' : RandSource} (h : g.power_or_uniform r arg = some (res, r')) :
    res.value ≤ arg.max_value := by
  unfold InstGenerator.power_or_uniform at h
  simp only [RandSource.below] at h
  split at h
  · exact powerOfTwoDraw_le h
  · exact le_of_lt (uniformDraw_lt h)

/-- A chosen element of a sequence is one of its elements. -/
theorem choose_eq_some_mem {α : Type} {r r' : RandSource} {l : List α} {a : α}
    (h : r.choose l = (some a, r')) : a ∈ l := by
  unfold RandSource.choose at h
  split at h
  · simp at h
  · simp only [RandSource.below, Prod.mk.injEq] at h
    exact List.get?_mem h.1

/-! ## C1 -/

/-- C1: for every operand spec with width `W > 0` (and max value `2 ^ W - 1`),
every random-source state and every `known_args` pool of well-formed arguments
(the ISA model's invariant `value ≤ spec.max_value`), the value of the
argument returned by `generate_argument` is at most the spec's max value,
whichever of the three generation paths (reuse, power-of-two, uniform)
produced it. -/
theorem generate_argument_le_max_value (g : InstGenerator) (r : RandSource)
    (arg : ArgumentSpec) (_hw : 0 < arg.width)
    (hpool : ∀ a ∈ g.known_args, a.value ≤ a.spec.max_value)
    (res : Argument) (r' : RandSource)
    (h : g.generate_argument r arg = some (res, r')) :
    res.value ≤ arg.max_value := by
  unfold InstGenerator.generate_argument at h
  simp only [RandSource.below] at h
  split at h
  · -- reuse roll hit
    split at h
    · -- no width-compatible pooled argument: fall through
      exact power_or_uniform_le h
    · -- reuse path proper
      split at h
      · exact Option.noConfusion h
      · rename_i chosen r2 heq
        simp only [Option.some.injEq, Prod.mk.injEq] at h
        obtain ⟨hres, _⟩ := h
        subst hres
        have hmem := choose_eq_some_mem heq
        rw [List.mem_filter] at hmem
        obtain ⟨hknown, hlen⟩ := hmem
        simp only [decide_eq_true_eq, ArgumentSpec.length] at hlen
        have hch := hpool chosen hknown
        simp only [ArgumentSpec.max_value] at hch
        rw [hlen] at hch
        simpa only [Argument.new, ArgumentSpec.max_value] using hch
  · -- reuse roll missed: fall through
    exact power_or_uniform_le h

/-- Witness for C1 at a concrete width-1 operand spec, empty pool and the
constant-1 random stream (the draw takes the uniform path and yields 0). -/
theorem generate_argument_le_max_value_witness :
    (Argument.new ⟨0, 1⟩ 0).value ≤ (ArgumentSpec.mk 0 1).max_value :=
  generate_argument_le_max_value ⟨[], 0, 0⟩ ⟨fun _ => 1, 0⟩ ⟨0, 1⟩ (by decide)
    (by intro a ha; simp at ha) (Argument.new ⟨0, 1⟩ 0) ⟨fun _ => 1, 3⟩ rfl

/-! ## C3 -/

/-- C3 counterexample: at the width-1 operand spec (max value 1) and the
constant-1 random stream, the code's uniform branch returns 0 (the draw's
bound `max_value` is exclusive: `1 % 1 = 0`), while the draw described by the
spec's words — uniform on `[0, max_value]` inclusive — returns `1 % 2 = 1`,
the max value itself; so `max_value` is not a possible result of the code's
uniform path, contradicting the claim. -/
theorem uniform_path_excludes_max_cex :
    InstGenerator.genArgValue ⟨[], 0, 0⟩ ⟨fun _ => 1, 0⟩ ⟨0, 1⟩ = some 0 ∧
    (uniformDrawSpec ⟨fun _ => 1, 2⟩ ⟨0, 1⟩).1.value = (ArgumentSpec.mk 0 1).max_value ∧
    some (ArgumentSpec.mk 0 1).max_value ≠ (some 0 : Option Nat) := by
  refine ⟨rfl, rfl, by decide⟩

/-- C3 amended: when neither the reuse path nor the power-of-two path is
taken, `generate_argument` returns the uniform branch's draw, whose value is
drawn uniformly from the integer range `[0, spec.max_value())` with the upper
bound exclusive: every value strictly below `max_value` is attainable, but
`max_value` itself is never returned by that branch. -/
theorem uniform_path_range (g : InstGenerator) (arg : ArgumentSpec)
    (hmax : 0 < arg.max_value) :
    (∀ r res r', uniformDraw r arg = some (res, r') → res.value < arg.max_value) ∧
    (∀ v, v < arg.max_value →
      ∃ r res r', uniformDraw r arg = some (res, r') ∧ res.value = v) ∧
    (∀ r : RandSource, ¬ r.seq r.idx % 100 < g.reuse_chance →
      ¬ r.seq (r.idx + 1) % 100 < g.power_of_two_chance →
      g.generate_argument r arg = uniformDraw ⟨r.seq, r.idx + 2⟩ arg) := by
  refine ⟨fun r res r' h => uniformDraw_lt h, fun v hv => ?_, fun r h1 h2 => ?_⟩
  · refine ⟨⟨fun _ => v, 0⟩, Argument.new arg v, ⟨fun _ => v, 1⟩, ?_, rfl⟩
    unfold uniformDraw
    rw [if_neg (Nat.pos_iff_ne_zero.mp hmax)]
    simp only [RandSource.below, Nat.mod_eq_of_lt hv]
  · unfold InstGenerator.generate_argument InstGenerator.power_or_uniform
    simp only [RandSource.below, if_neg h1, if_neg h2]

/-- Witness for the amended C3 at the width-2 operand spec (max value 3):
value 2 is attainable by the uniform branch. -/
theorem uniform_path_range_witness :
    ∃ r res r', uniformDraw r ⟨0, 2⟩ = some (res, r') ∧ res.value = 2 :=
  (uniform_path_range ⟨[], 50, 50⟩ ⟨0, 2⟩ (by decide)).2.1 2 (by decide)

/-! ## C9 -/

/-- Choosing from a non-empty sequence yields one of its elements. -/
theorem choose_ne_nil_some {α : Type} (r : RandSource) (l : List α) (h : l ≠ []) :
    ∃ a r', r.choose l = (some a, r') ∧ a ∈ l := by
  unfold RandSource.choose
  rw [if_neg (by simpa [List.isEmpty_iff] using h)]
  simp only [RandSource.below]
  have hlt : r.seq r.idx % l.length < l.length :=
    Nat.mod_lt _ (List.length_pos.mpr h)
  exact ⟨l.get ⟨_, hlt⟩, _, by rw [List.get?_eq_get hlt], List.get_mem _ _ _⟩

/-- A positive-width operand spec has a positive max value. -/
theorem max_value_pos {arg : ArgumentSpec} (hw : 0 < arg.width) :
    0 < arg.max_value := by
  have h2 : 2 ^ 1 ≤ 2 ^ arg.width := Nat.pow_le_pow_right (by norm_num) hw
  simp only [ArgumentSpec.max_value]
  omega

/-- The power-of-two/uniform fall-through hits no fatal branch on a
positive-width operand spec. -/
theorem power_or_uniform_isSome (g : InstGenerator) (r : RandSource)
    (arg : ArgumentSpec) (hw : 0 < arg.width) :
    (g.power_or_uniform r arg).isSome := by
  unfold InstGenerator.power_or_uniform powerOfTwoDraw uniformDraw
  have hlen : ¬ arg.length = 0 := by
    simpa [ArgumentSpec.length] using Nat.pos_iff_ne_zero.mp hw
  have hmax : ¬ arg.max_value = 0 := Nat.pos_iff_ne_zero.mp (max_value_pos hw)
  simp only [RandSource.below, if_neg hlen, if_neg hmax]
  split <;> rfl

/-- The power-of-two/uniform fall-through is fatal on a zero-width operand
spec: both of its branches hit a fatal `expect`. -/
theorem power_or_uniform_zero_width_none (g : InstGenerator) (r : RandSource)
    (arg : ArgumentSpec) (hw : arg.width = 0) :
    g.power_or_uniform r arg = none := by
  unfold InstGenerator.power_or_uniform powerOfTwoDraw uniformDraw
  have hlen : arg.length = 0 := by simp [ArgumentSpec.length, hw]
  have hmax : arg.max_value = 0 := by simp [ArgumentSpec.max_value, hw]
  simp only [RandSource.below, if_pos hlen, if_pos hmax, ite_self]

/-- `generate_argument` hits no fatal branch on a positive-width operand spec,
whatever the pool and the random state. -/
theorem generate_argument_isSome (g : InstGenerator) (r : RandSource)
    (arg : ArgumentSpec) (hw : 0 < arg.width) :
    (g.generate_argument r arg).isSome := by
  unfold InstGenerator.generate_argument
  simp only [RandSource.below]
  split
  · split
    · exact power_or_uniform_isSome g _ arg hw
    · rename_i hne
      have hnil : g.known_args.filter (fun x => x.spec.length = arg.length) ≠ [] := by
        intro hn
        simp [hn] at hne
      obtain ⟨a, r2, heq, _⟩ := choose_ne_nil_some _ _ hnil
      rw [heq]
      rfl
  · exact power_or_uniform_isSome g _ arg hw

/-- The argument loop hits no fatal branch when every operand has positive
width. -/
theorem generate_args_isSome (g : InstGenerator) (r : RandSource)
    (specs : List ArgumentSpec) (hall : ∀ s ∈ specs, 0 < s.width) :
    (g.generate_args r specs).isSome := by
  induction specs generalizing r with
  | nil => rfl
  | cons s rest ih =>
    unfold InstGenerator.generate_args
    obtain ⟨⟨a, r1⟩, heq⟩ :=
      Option.isSome_iff_exists.mp (generate_argument_isSome g r s (hall s (by simp)))
    rw [heq]
    obtain ⟨⟨args, r2⟩, heq2⟩ := Option.isSome_iff_exists.mp
      (ih r1 (fun x hx => hall x (List.mem_cons_of_mem s hx)))
    dsimp only
    rw [heq2]
    rfl

/-- C9 counterexample: `generate_argument` called on a zero-width (hence
zero-max-value) operand spec does not always abort: with a width-0 argument in
the reuse pool, `reuse_chance` 50 and the constant-0 random stream, the reuse
path returns value 0 instead of hitting a fatal branch. -/
theorem zero_width_reuse_not_fatal_cex :
    InstGenerator.genArgValue ⟨[⟨⟨7, 0⟩, 0⟩], 50, 50⟩ ⟨fun _ => 0, 0⟩ ⟨2, 0⟩ = some 0 ∧
    (ArgumentSpec.mk 2 0).width = 0 ∧ (ArgumentSpec.mk 2 0).max_value = 0 :=
  ⟨rfl, rfl, rfl⟩

/-- C9 amended: `generate_instruction` on an empty template set aborts fatally
(the `assert!`); `generate_argument` on a zero-width (equivalently
zero-max-value) operand spec aborts fatally whenever the reuse pool holds no
argument of that spec's bit-width (with such a pooled argument, a lucky reuse
roll returns its value instead); and under the preconditions — non-empty
template set, positive operand widths — no fatal branch is reachable. -/
theorem generation_preconditions_fail_fast (g : InstGenerator) (r : RandSource)
    (arg : ArgumentSpec) (insts : List InstructionTemplate) :
    (g.generate_instruction r [] = none) ∧
    (arg.width = 0 → (∀ a ∈ g.known_args, a.spec.length ≠ arg.length) →
      g.generate_argument r arg = none) ∧
    (0 < arg.width → (g.generate_argument r arg).isSome) ∧
    (insts ≠ [] → (∀ t ∈ insts, ∀ s ∈ t.operands, 0 < s.width) →
      (g.generate_instruction r insts).isSome) := by
  refine ⟨rfl, fun hw hnone => ?_, fun hw => generate_argument_isSome g r arg hw,
    fun hne hall => ?_⟩
  · unfold InstGenerator.generate_argument
    simp only [RandSource.below]
    have hfil : g.known_args.filter (fun x => x.spec.length = arg.length) = [] := by
      rw [List.filter_eq_nil_iff]
      intro a ha
      simpa using hnone a ha
    split
    · rw [hfil]
      simp only [List.isEmpty_nil, if_true]
      exact power_or_uniform_zero_width_none g _ arg hw
    · exact power_or_uniform_zero_width_none g _ arg hw
  · unfold InstGenerator.generate_instruction
    rw [if_neg (by simpa [List.isEmpty_iff] using hne)]
    obtain ⟨t, r1, heq, hmem⟩ := choose_ne_nil_some r insts hne
    rw [heq]
    obtain ⟨⟨args, r2⟩, heq2⟩ :=
      Option.isSome_iff_exists.mp (generate_args_isSome g r1 t.operands (hall t hmem))
    dsimp only
    rw [heq2]
    rfl

/-- Witness for the amended C9: at a concrete one-template set whose operands
have width 5, generation hits no fatal branch, and an empty template set is
fatal. -/
theorem generation_preconditions_fail_fast_witness :
    ((⟨[], 0, 0⟩ : InstGenerator).generate_instruction ⟨fun _ => 0, 0⟩ [] = none) ∧
    ((⟨[], 0, 0⟩ : InstGenerator).generate_instruction ⟨fun _ => 0, 0⟩
      [⟨0, [⟨0, 5⟩]⟩]).isSome := by
  have h := generation_preconditions_fail_fast ⟨[], 0, 0⟩ ⟨fun _ => 0, 0⟩ ⟨0, 5⟩
    [⟨0, [⟨0, 5⟩]⟩]
  exact ⟨h.1, h.2.2.2 (by decide) (by decide)⟩


/-! ## C8 -/

/-- C8 counterexample: `InstGenerator::new` reads the ambient environment
variable `PHANTOM_TRAILS_NO_ARG_REUSE` rather than taking an explicit
"disable biasing" constructor parameter: with the variable set both chances
are 0, with it unset both are 50, so the constructed generator depends on an
implicit ambient source, contradicting the claim. -/
theorem new_reads_ambient_env_cex :
    (InstGenerator.new (fun s => if s = noArgReuseVar then some "1" else none)).reuse_chance
        = 0 ∧
    (InstGenerator.new
        (fun s => if s = noArgReuseVar then some "1" else none)).power_of_two_chance = 0 ∧
    (InstGenerator.new (fun _ => none)).reuse_chance = 50 ∧
    (InstGenerator.new (fun _ => none)).power_of_two_chance = 50 ∧
    InstGenerator.new (fun s => if s = noArgReuseVar then some "1" else none)
        ≠ InstGenerator.new (fun _ => none) := by
  refine ⟨rfl, rfl, rfl, rfl, by decide⟩

/-- C8 amended: generator output is a pure deterministic function of its
explicit inputs — two generators with identical `known_args`, `reuse_chance`
and `power_of_two_chance`, run on an identical random-source state and an
identical template set, produce an identical program; the "disable biasing"
toggle, however, is read inside `new()` from the ambient environment variable
`PHANTOM_TRAILS_NO_ARG_REUSE` (forcing both chances, default 50, to 0), not
supplied as a constructor parameter. -/
theorem generator_deterministic (g1 g2 : InstGenerator) (r : RandSource)
    (insts : List InstructionTemplate) (n : Nat)
    (hka : g1.known_args = g2.known_args)
    (hrc : g1.reuse_chance = g2.reuse_chance)
    (hpc : g1.power_of_two_chance = g2.power_of_two_chance) :
    g1.generate_instructions r insts n = g2.generate_instructions r insts n := by
  have hg : g1 = g2 := by
    cases g1
    cases g2
    simp_all
  rw [hg]

/-- Witness for the amended C8 at two field-identical concrete generators. -/
theorem generator_deterministic_witness :
    (⟨[], 50, 50⟩ : InstGenerator).generate_instructions ⟨fun _ => 3, 0⟩
        [⟨0, [⟨0, 5⟩]⟩] 2
      = (⟨[], 50, 50⟩ : InstGenerator).generate_instructions ⟨fun _ => 3, 0⟩
        [⟨0, [⟨0, 5⟩]⟩] 2 :=
  generator_deterministic ⟨[], 50, 50⟩ ⟨[], 50, 50⟩ ⟨fun _ => 3, 0⟩
    [⟨0, [⟨0, 5⟩]⟩] 2 rfl rfl rfl

/-! ## C10 -/

/-- C10: generation never mutates generator state.  In the source the three
generation methods take `&self`, so replaying any sequence of method calls on
a generator leaves `reuse_chance` and `power_of_two_chance` unchanged and
changes the pool only through the `forward_args` calls, which append their
batches at the end of `known_args` in order — every existing element and
their order are preserved, and generated arguments are never implicitly added
to the pool. -/
theorem pool_changes_only_through_forward_args (g : InstGenerator)
    (calls : List GenCall) (batch : List Argument) :
    (applyCalls g calls).known_args = g.known_args ++ forwardedBatches calls ∧
    (applyCalls g calls).reuse_chance = g.reuse_chance ∧
    (applyCalls g calls).power_of_two_chance = g.power_of_two_chance ∧
    (g.forward_args batch).known_args = g.known_args ++ batch := by
  refine ⟨?_, ?_, ?_, rfl⟩ <;>
    induction calls generalizing g with
    | nil => simp [applyCalls, forwardedBatches]
    | cons c cs ih =>
      cases c with
      | forward args =>
        simp only [applyCalls, applyCall, forwardedBatches, ih,
          InstGenerator.forward_args, List.append_assoc]
      | genArg r spec => simpa [applyCalls, applyCall, forwardedBatches] using ih g
      | genInst r insts => simpa [applyCalls, applyCall, forwardedBatches] using ih g
      | genInsts r insts n => simpa [applyCalls, applyCall, forwardedBatches] using ih g


/-! ## Calibration helper lemmas -/

/-- The current testcase resolves exactly when the current id is in the
corpus. -/
theorem current_testcase_ok_iff {st : FuzzState} {tc : Testcase} :
    st.current_testcase = Except.ok tc ↔ corpusGet st.corpus st.current_id = some tc := by
  unfold FuzzState.current_testcase
  cases h : corpusGet st.corpus st.current_id <;> simp

/-- Replacing the entry stored under a present id makes lookup return the
replacement. -/
theorem corpusGet_corpusSet_self {c : List (Nat × Testcase)} {i : Nat} {t : Testcase}
    (h : corpusGet c i = some t) (t' : Testcase) :
    corpusGet (corpusSet c i t') i = some t' := by
  induction c with
  | nil => simp [corpusGet] at h
  | cons p rest ih =>
    obtain ⟨j, u⟩ := p
    by_cases hj : j = i
    · subst hj
      simp [corpusGet, corpusSet]
    · simp only [corpusGet, corpusSet, if_neg hj] at h ⊢
      exact ih h

/-- The get-or-create step ignores the entry's recorded execution time. -/
theorem getOrCreateMeta_exec_time_irrel (st : FuzzState) (tc : Testcase)
    (x : Option Nat) :
    getOrCreateMeta st { tc with exec_time := x } = getOrCreateMeta st tc := rfl

/-- When the entry has no record yet and its parent (if any) resolves, the
get-or-create step returns a fresh record at the spec's depth. -/
theorem getOrCreateMeta_none_eq {st : FuzzState} {tc : Testcase}
    (hnm : tc.sched_meta = none)
    (hpar : ∀ pid, tc.parent_id = some pid → (corpusGet st.corpus pid).isSome) :
    getOrCreateMeta st tc = Except.ok (SchedulerTestcaseMetadata.new (specDepth st tc)) := by
  cases hp : tc.parent_id with
  | none => simp [getOrCreateMeta, specDepth, hnm, hp]
  | some pid =>
    cases hg : corpusGet st.corpus pid with
    | none =>
      have h := hpar pid hp
      rw [hg] at h
      simp at h
    | some parent =>
      cases hms : parent.sched_meta with
      | none => simp [getOrCreateMeta, specDepth, hnm, hp, hg, hms]
      | some pm => simp [getOrCreateMeta, specDepth, hnm, hp, hg, hms]

/-- A first-time `perform` with the run-global `SchedulerMetadata` registered:
the full success path, spelling out the final state and the event trace. -/
theorem perform_first_time_meta (st : FuzzState) (ex : ExecModel) (tc : Testcase)
    (ek : ExitKind) (psm : SchedulerMetadata) (data : SchedulerTestcaseMetadata)
    (hcur : st.current_testcase = Except.ok tc)
    (hsched : tc.scheduled_count = 0)
    (hpre : ex.pre_exec = Except.ok ())
    (hrun : ex.run_target = Except.ok ek)
    (hlog : ex.log_result = Except.ok ())
    (hpost : ex.post_exec = Except.ok ())
    (hsm : st.sched_meta = some psm)
    (hmeta : getOrCreateMeta st tc = Except.ok data) :
    perform st ex = Except.ok
      ({ st with
         corpus := corpusSet st.corpus st.current_id
           { tc with
             exec_time := some (tc.input.insts.length + 1)
             sched_meta := some { data with
               exec_time := tc.input.insts.length + 1
               cycles := 1
               bitmap_size := ex.count_bytes
               handicap := psm.queue_cycles } }
         sched_meta := some { psm with
           exec_time := psm.exec_time + (tc.input.insts.length + 1)
           cycles := psm.cycles + 1
           bitmap_size := psm.bitmap_size + ex.count_bytes
           bitmap_size_log := psm.bitmap_size_log.addLog2 ex.count_bytes
           bitmap_entries := psm.bitmap_entries + 1 } },
       [Event.preExec, Event.runTarget]
         ++ (if ek = ExitKind.ok then []
             else [Event.log LogSeverity.warn calibrationWarnMsg])
         ++ [Event.postExec]) := by
  have hmeta1 : getOrCreateMeta st
      { tc with exec_time := some (tc.input.insts.length + 1) }
        = Except.ok data := by
    rw [getOrCreateMeta_exec_time_irrel]
    exact hmeta
  simp only [hsched] at hmeta1
  unfold perform
  rw [hcur]
  by_cases hek : ek = ExitKind.ok <;>
    simp [hsched, hpre, hrun, hlog, hpost, hsm, hek, hmeta1, Nat.div_one]

/-- A first-time `perform` without the run-global `SchedulerMetadata`: the
stage succeeds, fires the hooks and possible warning, and changes nothing. -/
theorem perform_first_time_nometa (st : FuzzState) (ex : ExecModel) (tc : Testcase)
    (ek : ExitKind)
    (hcur : st.current_testcase = Except.ok tc)
    (hsched : tc.scheduled_count = 0)
    (hpre : ex.pre_exec = Except.ok ())
    (hrun : ex.run_target = Except.ok ek)
    (hlog : ex.log_result = Except.ok ())
    (hpost : ex.post_exec = Except.ok ())
    (hsm : st.sched_meta = none) :
    perform st ex = Except.ok (st,
      [Event.preExec, Event.runTarget]
        ++ (if ek = ExitKind.ok then []
            else [Event.log LogSeverity.warn calibrationWarnMsg])
        ++ [Event.postExec]) := by
  unfold perform
  rw [hcur]
  by_cases hek : ek = ExitKind.ok <;>
    simp [hsched, hpre, hrun, hlog, hpost, hsm, hek]


/-! ## C2 -/

/-- C2: for every corpus entry whose scheduled count is positive, `perform`
returns `Ok` immediately: no target execution, no observer hooks, no log
events (the trace is empty) and no state change — the returned state is the
input state, so the global accumulators are untouched and a repeated call on
the same state is the same pure no-op; the accumulators change only on the
first calibration, when the count is still zero. -/
theorem calibration_scheduled_noop (st : FuzzState) (ex : ExecModel) (tc : Testcase)
    (hcur : st.current_testcase = Except.ok tc)
    (hsched : 0 < tc.scheduled_count) :
    perform st ex = Except.ok (st, []) := by
  unfold perform
  rw [hcur]
  simp [hsched]

/-- Witness for C2 at a concrete one-entry corpus whose entry was already
scheduled once. -/
theorem calibration_scheduled_noop_witness :
    perform ⟨[(0, ⟨⟨[]⟩, 1, none, none, none⟩)], 0, none⟩
        ⟨Except.ok (), Except.ok ExitKind.ok, Except.ok (), Except.ok (), 5⟩
      = Except.ok (⟨[(0, ⟨⟨[]⟩, 1, none, none, none⟩)], 0, none⟩, []) :=
  calibration_scheduled_noop _ _ ⟨⟨[]⟩, 1, none, none, none⟩ rfl (by decide)

/-! ## C4 -/

/-- C4: the code does NOT guard the degenerate case.  At a first-time
calibration whose coverage observer counts 0 nonzero bytes, line 153 of
src/calibration.rs adds `libm::log2(0) = -∞` to the global `bitmap_size_log`
accumulator unguarded, poisoning it permanently: starting from a finite
accumulator, the final global accumulator is `-∞`.  (The spec itself flags
this as a latent defect of the source in its design notes.) -/
theorem calibration_log2_zero_poisons_accumulator :
    (perform
        ⟨[(0, ⟨⟨[]⟩, 0, none, none, none⟩)], 0,
          some ⟨0, 0, 0, LogAccum.fin [], 0, 0⟩⟩
        ⟨Except.ok (), Except.ok ExitKind.ok, Except.ok (), Except.ok (), 0⟩).map
      (fun p => p.1.sched_meta.map SchedulerMetadata.bitmap_size_log)
      = Except.ok (some LogAccum.negInf) := rfl

/-! ## C5 -/

/-- C5 counterexample: a first-time calibration of a two-instruction entry in
a state with no run-global `SchedulerMetadata` registered succeeds but leaves
the whole state — including the entry's execution time, still `none` — 
unchanged, although the claim demands the cost `2 + 1 = 3` be recorded as the
entry's execution time unconditionally: `testcase.set_exec_time` sits inside
the `has_metadata::<SchedulerMetadata>` conditional (src/calibration.rs lines
138-158). -/
theorem calibration_exec_time_unrecorded_cex :
    perform
        ⟨[(0, ⟨⟨[Instruction.new ⟨0, []⟩ [], Instruction.new ⟨0, []⟩ []]⟩,
            0, none, none, none⟩)], 0, none⟩
        ⟨Except.ok (), Except.ok ExitKind.ok, Except.ok (), Except.ok (), 3⟩
      = Except.ok
          (⟨[(0, ⟨⟨[Instruction.new ⟨0, []⟩ [], Instruction.new ⟨0, []⟩ []]⟩,
              0, none, none, none⟩)], 0, none⟩,
            [Event.preExec, Event.runTarget, Event.postExec]) ∧
    [Instruction.new ⟨0, []⟩ [], Instruction.new ⟨0, []⟩ []].length + 1 = 3 ∧
    (none : Option Nat) ≠ some 3 :=
  ⟨rfl, rfl, by decide⟩

/-- C5 amended: at every first-time calibration the cost
`instruction_count(program) + 1` is computed unconditionally, but it is
recorded as the entry's execution time only when the run-global
`SchedulerMetadata` is registered; without it, `perform` succeeds and leaves
the state (hence the entry's execution time) unchanged. -/
theorem calibration_cost_recording (st : FuzzState) (ex : ExecModel) (tc : Testcase)
    (ek : ExitKind)
    (hcur : st.current_testcase = Except.ok tc)
    (hsched : tc.scheduled_count = 0)
    (hpre : ex.pre_exec = Except.ok ())
    (hrun : ex.run_target = Except.ok ek)
    (hlog : ex.log_result = Except.ok ())
    (hpost : ex.post_exec = Except.ok ()) :
    (st.sched_meta = none → perform st ex = Except.ok (st,
        [Event.preExec, Event.runTarget]
          ++ (if ek = ExitKind.ok then []
              else [Event.log LogSeverity.warn calibrationWarnMsg])
          ++ [Event.postExec])) ∧
    (∀ psm data, st.sched_meta = some psm → getOrCreateMeta st tc = Except.ok data →
      (perform st ex).map
          (fun p => (corpusGet p.1.corpus st.current_id).map Testcase.exec_time)
        = Except.ok (some (some (tc.input.insts.length + 1)))) := by
  constructor
  · intro hsm
    exact perform_first_time_nometa st ex tc ek hcur hsched hpre hrun hlog hpost hsm
  · intro psm data hsm hmeta
    rw [perform_first_time_meta st ex tc ek psm data hcur hsched hpre hrun hlog hpost
      hsm hmeta]
    have hget := current_testcase_ok_iff.mp hcur
    simp [Except.map, corpusGet_corpusSet_self hget]

/-- Witness for the amended C5: a concrete first-time calibration with the
global metadata registered records the empty program's cost `0 + 1 = 1`. -/
theorem calibration_cost_recording_witness :
    (perform ⟨[(0, ⟨⟨[]⟩, 0, none, none, none⟩)], 0,
          some ⟨0, 0, 0, LogAccum.fin [], 0, 0⟩⟩
        ⟨Except.ok (), Except.ok ExitKind.ok, Except.ok (), Except.ok (), 4⟩).map
        (fun p => (corpusGet p.1.corpus 0).map Testcase.exec_time)
      = Except.ok (some (some 1)) :=
  (calibration_cost_recording ⟨[(0, ⟨⟨[]⟩, 0, none, none, none⟩)], 0,
        some ⟨0, 0, 0, LogAccum.fin [], 0, 0⟩⟩
      ⟨Except.ok (), Except.ok ExitKind.ok, Except.ok (), Except.ok (), 4⟩
      ⟨⟨[]⟩, 0, none, none, none⟩ ExitKind.ok rfl rfl rfl rfl rfl rfl).2
    ⟨0, 0, 0, LogAccum.fin [], 0, 0⟩ (SchedulerTestcaseMetadata.new 0) rfl rfl

/-! ## C6 -/

/-- C6: when a first-time calibration attaches a `SchedulerTestcaseMetadata`
record to an entry that has none, the attached depth follows the spec's
rule (`specDepth`): parent's recorded depth plus one when the entry's parent
has a record, and zero when the entry has no parent or the parent has no
record. -/
theorem calibration_depth_propagation (st : FuzzState) (ex : ExecModel) (tc : Testcase)
    (ek : ExitKind) (psm : SchedulerMetadata)
    (hcur : st.current_testcase = Except.ok tc)
    (hsched : tc.scheduled_count = 0)
    (hpre : ex.pre_exec = Except.ok ())
    (hrun : ex.run_target = Except.ok ek)
    (hlog : ex.log_result = Except.ok ())
    (hpost : ex.post_exec = Except.ok ())
    (hsm : st.sched_meta = some psm)
    (hnm : tc.sched_meta = none)
    (hpar : ∀ pid, tc.parent_id = some pid → (corpusGet st.corpus pid).isSome) :
    (perform st ex).map
        (fun p => ((corpusGet p.1.corpus st.current_id).bind Testcase.sched_meta).map
          SchedulerTestcaseMetadata.depth)
      = Except.ok (some (specDepth st tc)) := by
  rw [perform_first_time_meta st ex tc ek psm _ hcur hsched hpre hrun hlog hpost hsm
    (getOrCreateMeta_none_eq hnm hpar)]
  have hget := current_testcase_ok_iff.mp hcur
  simp [Except.map, corpusGet_corpusSet_self hget, SchedulerTestcaseMetadata.new]

/-- Witness for C6: a two-entry corpus where entry 1's parent (entry 0) holds
a record of depth 2; calibrating entry 1 attaches depth 3. -/
theorem calibration_depth_propagation_witness :
    (perform ⟨[(0, ⟨⟨[]⟩, 4, none, none, some ⟨2, 0, 0, 0, 0⟩⟩),
            (1, ⟨⟨[]⟩, 0, none, some 0, none⟩)], 1,
          some ⟨0, 0, 0, LogAccum.fin [], 0, 0⟩⟩
        ⟨Except.ok (), Except.ok ExitKind.ok, Except.ok (), Except.ok (), 2⟩).map
        (fun p => ((corpusGet p.1.corpus 1).bind Testcase.sched_meta).map
          SchedulerTestcaseMetadata.depth)
      = Except.ok (some 3) :=
  calibration_depth_propagation
    ⟨[(0, ⟨⟨[]⟩, 4, none, none, some ⟨2, 0, 0, 0, 0⟩⟩),
        (1, ⟨⟨[]⟩, 0, none, some 0, none⟩)], 1,
      some ⟨0, 0, 0, LogAccum.fin [], 0, 0⟩⟩
    ⟨Except.ok (), Except.ok ExitKind.ok, Except.ok (), Except.ok (), 2⟩
    ⟨⟨[]⟩, 0, none, some 0, none⟩ ExitKind.ok ⟨0, 0, 0, LogAccum.fin [], 0, 0⟩
    rfl rfl rfl rfl rfl rfl rfl rfl
    (by intro pid h; cases h; rfl)

/-! ## C7 -/

/-- C7: a first-time calibration whose execution ends abnormally fires
exactly one warning-severity log event through the host event channel and
still returns `Ok`; the resulting state is identical to that of a normal-exit
run: the entry remains in the corpus, its record is updated, and the cost
`instruction_count + 1` is still recorded from the instruction count. -/
theorem calibration_abnormal_exit_warns (st : FuzzState) (ex : ExecModel)
    (tc : Testcase) (ek : ExitKind) (psm : SchedulerMetadata)
    (data : SchedulerTestcaseMetadata)
    (hcur : st.current_testcase = Except.ok tc)
    (hsched : tc.scheduled_count = 0)
    (hpre : ex.pre_exec = Except.ok ())
    (hrun : ex.run_target = Except.ok ek)
    (hek : ek ≠ ExitKind.ok)
    (hlog : ex.log_result = Except.ok ())
    (hpost : ex.post_exec = Except.ok ())
    (hsm : st.sched_meta = some psm)
    (hmeta : getOrCreateMeta st tc = Except.ok data) :
    (perform st ex).map Prod.snd = Except.ok
        [Event.preExec, Event.runTarget,
          Event.log LogSeverity.warn calibrationWarnMsg, Event.postExec] ∧
    (perform st ex).map Prod.fst
        = (perform st { ex with run_target := Except.ok ExitKind.ok }).map Prod.fst ∧
    (perform st ex).map (fun p => (corpusGet p.1.corpus st.current_id).isSome)
        = Except.ok true ∧
    (perform st ex).map
        (fun p => ((corpusGet p.1.corpus st.current_id).bind Testcase.sched_meta).map
          (fun m => m.exec_time))
      = Except.ok (some (tc.input.insts.length + 1)) := by
  have h1 := perform_first_time_meta st ex tc ek psm data hcur hsched hpre hrun hlog
    hpost hsm hmeta
  have h2 := perform_first_time_meta st { ex with run_target := Except.ok ExitKind.ok }
    tc ExitKind.ok psm data hcur hsched hpre rfl hlog hpost hsm hmeta
  have hget := current_testcase_ok_iff.mp hcur
  refine ⟨?_, ?_, ?_, ?_⟩ <;>
    simp [h1, h2, hek, Except.map, corpusGet_corpusSet_self hget]

/-- Witness for C7: a concrete first-time calibration that times out is
logged once, keeps the entry, and records cost 1 for the empty program. -/
theorem calibration_abnormal_exit_warns_witness :
    (perform ⟨[(0, ⟨⟨[]⟩, 0, none, none, none⟩)], 0,
          some ⟨0, 0, 0, LogAccum.fin [], 0, 0⟩⟩
        ⟨Except.ok (), Except.ok ExitKind.timeout, Except.ok (), Except.ok (), 2⟩).map
        Prod.snd
      = Except.ok [Event.preExec, Event.runTarget,
          Event.log LogSeverity.warn calibrationWarnMsg, Event.postExec] :=
  (calibration_abnormal_exit_warns ⟨[(0, ⟨⟨[]⟩, 0, none, none, none⟩)], 0,
        some ⟨0, 0, 0, LogAccum.fin [], 0, 0⟩⟩
      ⟨Except.ok (), Except.ok ExitKind.timeout, Except.ok (), Except.ok (), 2⟩
      ⟨⟨[]⟩, 0, none, none, none⟩ ExitKind.timeout ⟨0, 0, 0, LogAccum.fin [], 0, 0⟩
      (SchedulerTestcaseMetadata.new 0) rfl rfl rfl rfl (by decide) rfl rfl rfl rfl).1

end HwFuzz
